import Mathlib

/-!
Shallow embedding of `ytscraper/commands/search.py`: the breadth-first
crawler `build_nodes`, the branching-factor clamp `_get_branching`,
configuration normalization `validate`, and seed resolution
`get_starter_videos`, together with the URL-query parsing the `url` mode
relies on.  Collaborators (`related_search`, `video_search`, `video_info`)
are modelled as pure functions passed in; `none` models an uncaught Python
exception.
-/

namespace YtScraper

/-- A raw record as returned by the YouTube API collaborator: the video
identifier plus further descriptive fields (represented by `title`). -/
structure Raw where
  videoId : String
  title : String
deriving DecidableEq, Repr

/-- An entry of the traversal queue: a raw record after
`video.update({"rank": rank, "depth": d})` attached rank and depth. -/
structure QItem where
  videoId : String
  title : String
  rank : Nat
  depth : Nat
deriving DecidableEq, Repr

/-- An output node: a queue entry after `relatedVideos` was attached while
it was processed. -/
structure Item where
  videoId : String
  title : String
  rank : Nat
  depth : Nat
  relatedVideos : List String
deriving DecidableEq, Repr

/-- `_get_branching(container, index)`: clamp `index` into the valid index
range of `container` and return that element.  `none` models the
`IndexError` Python raises when `container` is empty (the clamped index is
then `0`, which is out of bounds). -/
def _get_branching {α : Type} (container : List α) (index : Int) : Option α :=
  let maximal_index : Int := (container.length : Int) - 1
  let minimal_index : Int := 0
  let clamped_index := min maximal_index index
  let clamped_index := max minimal_index clamped_index
  container.get? clamped_index.toNat

/-- A dynamically typed configuration value as stored in the `config`
mapping: an int, a string, or a sequence of ints (list/tuple). -/
inductive CVal where
  | vint (n : Int)
  | vstr (s : String)
  | vlist (l : List Int)
deriving DecidableEq, Repr

/-- Python `int(x)`: identity on ints, string parsing on strings
(`ValueError`, i.e. `none`, when the string is not an integer literal),
`TypeError` (`none`) on sequences. -/
def pyInt : CVal → Option Int
  | .vint n => some n
  | .vstr s => s.toInt?
  | .vlist _ => none

/-- The slice of the `config` mapping that `validate` reads or writes: the
keys `max_depth` and `number` (every other key is untouched by
`validate`). -/
structure RawConfig where
  max_depth : CVal
  number : CVal
deriving DecidableEq, Repr

/-- `validate(config)`: coerce `max_depth` with `int(...)` and wrap a
scalar `number` into a one-element sequence.  The Python function mutates
`config` in place and returns `None`; here the returned mapping is the
caller's mapping as it stands after the call.  `none` models an uncaught
exception from `int(...)`. -/
def validate (config : RawConfig) : Option RawConfig :=
  match pyInt config.max_depth with
  | none => none
  | some d =>
    let config1 : RawConfig := { config with max_depth := .vint d }
    match config1.number with
    | .vint n => some { config1 with number := .vlist [n] }
    | _ => some config1

/-- The configuration shape `build_nodes` consumes: `max_depth` already an
int, `number` already a sequence of ints. -/
structure Config where
  max_depth : Int
  number : List Int
deriving DecidableEq, Repr

/-- The related-search collaborator `related_search(handle, n, videoId)`,
modelled as a pure function from the video id and the requested count to
the returned records. -/
abbrev Fetch := String → Int → List Raw

/-- The loop state of `build_nodes`: the FIFO `queue`, the `processed`
output list, and an instrumentation log of the `related_search` calls made
so far (video id and requested count). -/
structure CrawlState where
  queue : List QItem
  processed : List Item
  calls : List (String × Int)
deriving DecidableEq, Repr

/-- Attach `relatedVideos` to a queue entry, producing an output node. -/
def QItem.withRelated (v : QItem) (rel : List String) : Item :=
  { videoId := v.videoId, title := v.title, rank := v.rank, depth := v.depth,
    relatedVideos := rel }

/-- `child.update({"rank": rank, "depth": d + 1})`: a returned child record
made into a queue entry below a parent at depth `d`. -/
def childToQ (d : Nat) (rank : Nat) (c : Raw) : QItem :=
  { videoId := c.videoId, title := c.title, rank := rank, depth := d + 1 }

/-- The children enqueued for a parent at depth `d`: the returned records
in order, each given its rank (its index in the returned sequence). -/
def enqueueChildren (d : Nat) (children : List Raw) : List QItem :=
  children.enum.map fun rc => childToQ d rc.1 rc.2

/-- One iteration of the `while` loop of `build_nodes`: dequeue the front
item, append it to the output, and — when its depth is below `max_depth` —
fetch and enqueue its children.  `none` models the `IndexError` of
`_get_branching` on an empty `number` schedule; on an empty queue the
state is returned unchanged. -/
def step (cfg : Config) (fetch : Fetch) (s : CrawlState) : Option CrawlState :=
  match s.queue with
  | [] => some s
  | v :: rest =>
    if cfg.max_depth ≤ (v.depth : Int) then
      some { queue := rest
             processed := s.processed ++ [v.withRelated []]
             calls := s.calls }
    else
      match _get_branching cfg.number (v.depth : Int) with
      | none => none
      | some n =>
        let children := fetch v.videoId n
        some { queue := rest ++ enqueueChildren v.depth children
               processed := s.processed ++ [v.withRelated (children.map Raw.videoId)]
               calls := s.calls ++ [(v.videoId, n)] }

/-- Run the `build_nodes` loop for at most `fuel` iterations; the loop
stops by itself once the queue is empty, `fuel` only indexes the
small-step unfolding. -/
def runLoop (cfg : Config) (fetch : Fetch) : Nat → CrawlState → Option CrawlState
  | 0, s => some s
  | fuel + 1, s =>
    match s.queue with
    | [] => some s
    | _ :: _ => (step cfg fetch s).bind (runLoop cfg fetch fuel)

/-- The initial state of `build_nodes`: every starter video receives its
rank (its position among the seeds) and depth `0`; the output list and the
call log start empty. -/
def initState (starter_videos : List Raw) : CrawlState :=
  { queue := starter_videos.enum.map fun rv =>
      { videoId := rv.2.videoId, title := rv.2.title, rank := rv.1, depth := 0 }
    processed := []
    calls := [] }

/-- `build_nodes(config, handle, api_options, starter_videos)`, unfolded
for `fuel` loop iterations. -/
def build_nodes (cfg : Config) (fetch : Fetch) (starter_videos : List Raw)
    (fuel : Nat) : Option CrawlState :=
  runLoop cfg fetch fuel (initState starter_videos)

/-- Python `str.split(sep)` for a one-character separator, over the
character list of the string; `"".split(sep) == [""]`. -/
def splitOnChar (sep : Char) : List Char → List (List Char)
  | [] => [[]]
  | c :: cs =>
    let rest := splitOnChar sep cs
    if c = sep then [] :: rest
    else
      match rest with
      | [] => [[c]]
      | r :: rs => (c :: r) :: rs

/-- `urllib.parse.urlsplit(url).query`: the part of `url` after the first
question mark, after the fragment (everything from the first hash on) has
been removed. -/
def urlsplitQuery (url : String) : String :=
  let noFrag : List Char :=
    match splitOnChar '#' url.data with
    | [] => []
    | u :: _ => u
  match splitOnChar '?' noFrag with
  | [] => ""
  | [_] => ""
  | _ :: rest => String.mk (List.intercalate ['?'] rest)

/-- `urllib.parse.parse_qsl(qs)` with default arguments: split on `&`,
split each field at its first `=`, drop fields without `=` and fields with
an empty value.  Percent-decoding is elided (video identifiers are
URL-safe). -/
def parse_qsl (qs : String) : List (String × String) :=
  (splitOnChar '&' qs.data).filterMap fun field =>
    match splitOnChar '=' field with
    | [] => none
    | [_] => none
    | fieldName :: rest =>
      let value := List.intercalate ['='] rest
      if value = [] then none
      else some (String.mk fieldName, String.mk value)

/-- The three seed-resolution modes of the `search` command. -/
inductive SearchType where
  | term
  | id
  | url
deriving DecidableEq, Repr

/-- `get_starter_videos(config, handle, api_options, search_type, query)`.
The collaborators `video_search(handle, n, query)` and
`video_info(handle, id)` are passed as pure functions.  `none` models an
uncaught exception: the `IndexError` when `config["number"][0]` is read
from an empty schedule, and the `KeyError` when the `url` mode finds no
`v` query parameter. -/
def get_starter_videos (cfg : Config) (video_search : Int → String → List Raw)
    (video_info : String → List Raw) (search_type : SearchType)
    (query : String) : Option (List Raw) :=
  match search_type with
  | .term =>
    match cfg.number with
    | [] => none
    | n :: _ => some (video_search n query)
  | .id => some (video_info query)
  | .url =>
    let qterm := urlsplitQuery query
    match (parse_qsl qterm).lookup "v" with
    | none => none
    | some video_id => some (video_info video_id)

/-- Sample related-search collaborator used for concrete scenarios: seeds
`A` and `B` each have two related videos, nothing else has any. -/
def exFetch : Fetch := fun id _n =>
  if id = "A" then [⟨"A0", "t"⟩, ⟨"A1", "t"⟩]
  else if id = "B" then [⟨"B0", "t"⟩, ⟨"B1", "t"⟩]
  else []

/-- Sample search-by-term collaborator (returns nothing). -/
def exSearch : Int → String → List Raw := fun _ _ => []

/-- Sample fetch-by-id collaborator: one record carrying the id. -/
def exInfo : String → List Raw := fun id => [⟨id, "t"⟩]

/-! ## Helper lemmas -/

@[simp]
theorem withRelated_videoId (v : QItem) (rel : List String) :
    (v.withRelated rel).videoId = v.videoId := rfl

@[simp]
theorem withRelated_depth (v : QItem) (rel : List String) :
    (v.withRelated rel).depth = v.depth := rfl

@[simp]
theorem withRelated_relatedVideos (v : QItem) (rel : List String) :
    (v.withRelated rel).relatedVideos = rel := rfl

theorem get_branching_nil {α : Type} (index : Int) :
    _get_branching ([] : List α) index = none := rfl

theorem depth_of_mem_enqueueChildren {d : Nat} {children : List Raw} {c : QItem}
    (h : c ∈ enqueueChildren d children) : c.depth = d + 1 := by
  simp only [enqueueChildren, List.mem_map] at h
  obtain ⟨rc, _, rfl⟩ := h
  rfl

theorem enqueueChildren_map_videoId (d : Nat) (children : List Raw) :
    (enqueueChildren d children).map QItem.videoId = children.map Raw.videoId := by
  unfold enqueueChildren
  rw [List.map_map]
  rw [show (QItem.videoId ∘ fun rc : Nat × Raw => childToQ d rc.1 rc.2) =
    (Raw.videoId ∘ Prod.snd) from rfl]
  rw [← List.map_map, show children.enum = children.enumFrom 0 from rfl,
    List.enumFrom_map_snd]

theorem pairwise_depth_of_const {l : List QItem} {k : Nat}
    (h : ∀ c ∈ l, c.depth = k) : l.Pairwise (fun a b => a.depth ≤ b.depth) := by
  induction l with
  | nil => exact List.Pairwise.nil
  | cons a t ih =>
    refine List.Pairwise.cons (fun b hb => ?_) (ih fun c hc => h c (by simp [hc]))
    rw [h a (by simp), h b (by simp [hb])]

theorem depth_of_mem_initState {seeds : List Raw} {q : QItem}
    (h : q ∈ (initState seeds).queue) : q.depth = 0 := by
  simp only [initState, List.mem_map] at h
  obtain ⟨rv, _, rfl⟩ := h
  rfl

/-- Inversion of a successful loop iteration: either the queue was empty
and nothing changed, or the front item was terminal (depth at or past
`max_depth`), or it was expanded. -/
theorem step_cases (cfg : Config) (fetch : Fetch) (s s2 : CrawlState)
    (h : step cfg fetch s = some s2) :
    (s.queue = [] ∧ s2 = s) ∨
    (∃ v rest, s.queue = v :: rest ∧ cfg.max_depth ≤ (v.depth : Int) ∧
      s2 = ⟨rest, s.processed ++ [v.withRelated []], s.calls⟩) ∨
    (∃ v rest n, s.queue = v :: rest ∧ (v.depth : Int) < cfg.max_depth ∧
      _get_branching cfg.number (v.depth : Int) = some n ∧
      s2 = ⟨rest ++ enqueueChildren v.depth (fetch v.videoId n),
        s.processed ++ [v.withRelated ((fetch v.videoId n).map Raw.videoId)],
        s.calls ++ [(v.videoId, n)]⟩) := by
  obtain ⟨q, proc, cl⟩ := s
  cases q with
  | nil =>
    simp only [step, Option.some.injEq] at h
    exact Or.inl ⟨rfl, h.symm⟩
  | cons v rest =>
    simp only [step] at h
    by_cases hd : cfg.max_depth ≤ (v.depth : Int)
    · rw [if_pos hd] at h
      simp only [Option.some.injEq] at h
      exact Or.inr (Or.inl ⟨v, rest, rfl, hd, h.symm⟩)
    · rw [if_neg hd] at h
      cases hb : _get_branching cfg.number (v.depth : Int) with
      | none => rw [hb] at h; exact absurd h (by simp)
      | some n =>
        rw [hb] at h
        simp only [Option.some.injEq] at h
        exact Or.inr (Or.inr ⟨v, rest, n, rfl, lt_of_not_le hd, hb, h.symm⟩)

/-- A loop iteration that dequeues a terminal item: the item is appended
to the output with an empty `relatedVideos` and no collaborator call is
made. -/
theorem step_terminal (cfg : Config) (fetch : Fetch) (s : CrawlState)
    (v : QItem) (rest : List QItem) (hq : s.queue = v :: rest)
    (hd : cfg.max_depth ≤ (v.depth : Int)) :
    step cfg fetch s =
      some ⟨rest, s.processed ++ [v.withRelated []], s.calls⟩ := by
  obtain ⟨q, proc, cl⟩ := s
  rw [show q = v :: rest from hq]
  simp only [step, if_pos hd]

/-- A loop iteration that dequeues an expandable item: the item is
appended to the output with the children's ids attached, the children are
enqueued at the back, and the collaborator call is logged. -/
theorem step_expand (cfg : Config) (fetch : Fetch) (s : CrawlState)
    (v : QItem) (rest : List QItem) (n : Int) (hq : s.queue = v :: rest)
    (hd : (v.depth : Int) < cfg.max_depth)
    (hb : _get_branching cfg.number (v.depth : Int) = some n) :
    step cfg fetch s =
      some ⟨rest ++ enqueueChildren v.depth (fetch v.videoId n),
        s.processed ++ [v.withRelated ((fetch v.videoId n).map Raw.videoId)],
        s.calls ++ [(v.videoId, n)]⟩ := by
  obtain ⟨q, proc, cl⟩ := s
  rw [show q = v :: rest from hq]
  simp only [step, if_neg (not_le.mpr hd), hb]

/-- Any property preserved by a single loop iteration is preserved by any
number of iterations. -/
theorem runLoop_inv {cfg : Config} {fetch : Fetch} {P : CrawlState → Prop}
    (hstep : ∀ s s2, P s → step cfg fetch s = some s2 → P s2) :
    ∀ (fuel : Nat) (s s2 : CrawlState), P s →
      runLoop cfg fetch fuel s = some s2 → P s2 := by
  intro fuel
  induction fuel with
  | zero =>
    intro s s2 hP h
    simp only [runLoop, Option.some.injEq] at h
    exact h ▸ hP
  | succ m ih =>
    intro s s2 hP h
    obtain ⟨q, proc, cl⟩ := s
    cases q with
    | nil =>
      simp only [runLoop, Option.some.injEq] at h
      exact h ▸ hP
    | cons v rest =>
      simp only [runLoop] at h
      cases hs : step cfg fetch ⟨v :: rest, proc, cl⟩ with
      | none => rw [hs] at h; exact absurd h (by simp)
      | some s1 =>
        rw [hs] at h
        simp only [Option.bind] at h
        exact ih s1 s2 (hstep _ s1 hP hs) h

/-! ## Invariants of the traversal loop -/

/-- The classic BFS queue invariant: the queue depths are sorted and span
at most two consecutive levels, processed depths never exceed queued
depths, and the output depths are sorted. -/
def bfsInv (s : CrawlState) : Prop :=
  s.queue.Pairwise (fun a b => a.depth ≤ b.depth) ∧
  (∀ a ∈ s.queue, ∀ b ∈ s.queue, a.depth ≤ b.depth + 1) ∧
  (∀ p ∈ s.processed, ∀ q ∈ s.queue, p.depth ≤ q.depth) ∧
  s.processed.Pairwise (fun a b => a.depth ≤ b.depth)

theorem step_bfsInv {cfg : Config} {fetch : Fetch} (s s2 : CrawlState)
    (hI : bfsInv s) (h : step cfg fetch s = some s2) : bfsInv s2 := by
  obtain ⟨hqp, hband, hpq, hpp⟩ := hI
  rcases step_cases cfg fetch s s2 h with
    ⟨hq, rfl⟩ | ⟨v, rest, hq, hd, rfl⟩ | ⟨v, rest, n, hq, hd, hb, rfl⟩
  · exact ⟨hqp, hband, hpq, hpp⟩
  · rw [hq] at hqp hband hpq
    obtain ⟨hvrest, hrest⟩ := List.pairwise_cons.mp hqp
    refine ⟨hrest, ?_, ?_, ?_⟩
    · intro a ha b hb
      exact hband a (by simp [ha]) b (by simp [hb])
    · intro p hp q hqmem
      rcases List.mem_append.mp hp with hp | hp
      · exact hpq p hp q (by simp [hqmem])
      · rw [List.mem_singleton.mp hp]
        simpa using hvrest q hqmem
    · rw [List.pairwise_append]
      refine ⟨hpp, List.pairwise_singleton _ _, ?_⟩
      intro p hp b hb
      rw [List.mem_singleton.mp hb]
      simpa using hpq p hp v (by simp)
  · rw [hq] at hqp hband hpq
    obtain ⟨hvrest, hrest⟩ := List.pairwise_cons.mp hqp
    have hC : ∀ c ∈ enqueueChildren v.depth (fetch v.videoId n),
        c.depth = v.depth + 1 := fun c hc => depth_of_mem_enqueueChildren hc
    refine ⟨?_, ?_, ?_, ?_⟩
    · rw [List.pairwise_append]
      refine ⟨hrest, pairwise_depth_of_const hC, ?_⟩
      intro a ha c hc
      rw [hC c hc]
      exact hband a (by simp [ha]) v (by simp)
    · intro a ha b hb
      rcases List.mem_append.mp ha with ha | ha <;>
        rcases List.mem_append.mp hb with hb | hb
      · exact hband a (by simp [ha]) b (by simp [hb])
      · rw [hC b hb]
        have := hband a (by simp [ha]) v (by simp)
        omega
      · rw [hC a ha]
        have := hvrest b hb
        omega
      · rw [hC a ha, hC b hb]
        omega
    · intro p hp q hqmem
      rcases List.mem_append.mp hp with hp | hp
      · rcases List.mem_append.mp hqmem with hqm | hqm
        · exact hpq p hp q (by simp [hqm])
        · rw [hC q hqm]
          have := hpq p hp v (by simp)
          omega
      · rw [List.mem_singleton.mp hp]
        rcases List.mem_append.mp hqmem with hqm | hqm
        · simpa using hvrest q hqm
        · simp only [withRelated_depth]
          rw [hC q hqm]
          omega
    · rw [List.pairwise_append]
      refine ⟨hpp, List.pairwise_singleton _ _, ?_⟩
      intro p hp b hb
      rw [List.mem_singleton.mp hb]
      simpa using hpq p hp v (by simp)

theorem initState_bfsInv (seeds : List Raw) : bfsInv (initState seeds) := by
  refine ⟨pairwise_depth_of_const (fun q hq => depth_of_mem_initState hq),
    ?_, ?_, ?_⟩
  · intro a ha b hb
    rw [depth_of_mem_initState ha, depth_of_mem_initState hb]
    omega
  · intro p hp
    simp [initState] at hp
  · simp [initState]

/-- Depth-bound invariant: no queued or processed item lies beyond
`max_depth`, and a processed item exactly at `max_depth` carries an empty
`relatedVideos`. -/
def depthBound (cfg : Config) (s : CrawlState) : Prop :=
  (∀ q ∈ s.queue, (q.depth : Int) ≤ cfg.max_depth) ∧
  (∀ p ∈ s.processed, (p.depth : Int) ≤ cfg.max_depth ∧
    ((p.depth : Int) = cfg.max_depth → p.relatedVideos = []))

theorem step_depthBound {cfg : Config} {fetch : Fetch} (s s2 : CrawlState)
    (hI : depthBound cfg s) (h : step cfg fetch s = some s2) :
    depthBound cfg s2 := by
  obtain ⟨hqb, hpb⟩ := hI
  rcases step_cases cfg fetch s s2 h with
    ⟨hq, rfl⟩ | ⟨v, rest, hq, hd, rfl⟩ | ⟨v, rest, n, hq, hd, hb, rfl⟩
  · exact ⟨hqb, hpb⟩
  · rw [hq] at hqb
    refine ⟨fun q hqm => hqb q (by simp [hqm]), ?_⟩
    intro p hp
    rcases List.mem_append.mp hp with hp | hp
    · exact hpb p hp
    · rw [List.mem_singleton.mp hp]
      exact ⟨by simpa using hqb v (by simp), fun _ => rfl⟩
  · rw [hq] at hqb
    refine ⟨?_, ?_⟩
    · intro q hqm
      rcases List.mem_append.mp hqm with hqm | hqm
      · exact hqb q (by simp [hqm])
      · rw [depth_of_mem_enqueueChildren hqm]
        push_cast
        omega
    · intro p hp
      rcases List.mem_append.mp hp with hp | hp
      · exact hpb p hp
      · rw [List.mem_singleton.mp hp]
        simp only [withRelated_depth]
        exact ⟨le_of_lt hd, fun heq => absurd heq (by omega)⟩

theorem initState_depthBound {cfg : Config} (hmd : 0 ≤ cfg.max_depth)
    (seeds : List Raw) : depthBound cfg (initState seeds) := by
  refine ⟨fun q hq => ?_, ?_⟩
  · rw [depth_of_mem_initState hq]
    simpa using hmd
  · intro p hp
    simp [initState] at hp

/-- Edge-mirroring invariant: every processed item below `max_depth`
carries exactly the ids of the records the collaborator returned for it,
in order. -/
def mirrors (cfg : Config) (fetch : Fetch) (s : CrawlState) : Prop :=
  ∀ p ∈ s.processed, (p.depth : Int) < cfg.max_depth →
    ∃ n, _get_branching cfg.number (p.depth : Int) = some n ∧
      p.relatedVideos = (fetch p.videoId n).map Raw.videoId

theorem step_mirrors {cfg : Config} {fetch : Fetch} (s s2 : CrawlState)
    (hI : mirrors cfg fetch s) (h : step cfg fetch s = some s2) :
    mirrors cfg fetch s2 := by
  rcases step_cases cfg fetch s s2 h with
    ⟨hq, rfl⟩ | ⟨v, rest, hq, hd, rfl⟩ | ⟨v, rest, n, hq, hd, hb, rfl⟩
  · exact hI
  · intro p hp hlt
    rcases List.mem_append.mp hp with hp | hp
    · exact hI p hp hlt
    · rw [List.mem_singleton.mp hp] at hlt
      simp only [withRelated_depth] at hlt
      omega
  · intro p hp hlt
    rcases List.mem_append.mp hp with hp | hp
    · exact hI p hp hlt
    · rw [List.mem_singleton.mp hp]
      exact ⟨n, by simpa using hb, by simp⟩

/-- The number-wrapping branch of `validate`: a scalar int is wrapped into
a one-element sequence (`tuple((number,))`), anything else is left
unchanged. -/
def wrapNumber : CVal → CVal
  | .vint n => .vlist [n]
  | other => other

theorem wrapNumber_idem (x : CVal) : wrapNumber (wrapNumber x) = wrapNumber x := by
  cases x <;> rfl

/-- Characterization of a successful `validate`: when `int(max_depth)`
succeeds with `d`, the caller's mapping afterwards holds `max_depth = d`
and the wrapped `number`. -/
theorem validate_char (c : RawConfig) (d : Int)
    (h : pyInt c.max_depth = some d) :
    validate c = some ⟨.vint d, wrapNumber c.number⟩ := by
  obtain ⟨md, num⟩ := c
  have h2 : pyInt md = some d := h
  cases num <;> simp [validate, wrapNumber, h2]

/-- `validate` fails exactly when the `int(...)` coercion fails. -/
theorem validate_none (c : RawConfig) (h : pyInt c.max_depth = none) :
    validate c = none := by
  obtain ⟨md, num⟩ := c
  have h2 : pyInt md = none := h
  simp [validate, h2]

/-- The final state of the two-seed scenario: seeds `A`, `B`, `max_depth`
1, branching schedule `[2]`. -/
def exFinal : CrawlState :=
  ⟨[],
    [⟨"A", "t", 0, 0, ["A0", "A1"]⟩, ⟨"B", "t", 1, 0, ["B0", "B1"]⟩,
      ⟨"A0", "t", 0, 1, []⟩, ⟨"A1", "t", 1, 1, []⟩,
      ⟨"B0", "t", 0, 1, []⟩, ⟨"B1", "t", 1, 1, []⟩],
    [("A", 2), ("B", 2)]⟩

/-! ## Claims -/

/-- C1: `build_nodes` visits in BFS order.  (1) For every seed sequence,
config, collaborator and fuel, the depths along the output sequence are
non-decreasing, so all items of depth `d` appear before any item of depth
`d + 1`.  (2) Every successful loop iteration appends the dequeued front
item to the output and enqueues exactly that item's children at the back
of the queue, in the order the collaborator returned them (no children
when the front item is terminal).  (3) For seeds `[A, B]` each producing
two children under `max_depth = 1`, `number = [2]`, the output order is
`A, B, A0, A1, B0, B1`. -/
theorem build_nodes_bfs_order :
    (∀ (cfg : Config) (fetch : Fetch) (starter_videos : List Raw)
        (fuel : Nat) (s : CrawlState),
        build_nodes cfg fetch starter_videos fuel = some s →
        s.processed.Pairwise (fun a b => a.depth ≤ b.depth)) ∧
    (∀ (cfg : Config) (fetch : Fetch) (s : CrawlState) (v : QItem)
        (rest : List QItem), s.queue = v :: rest →
        (cfg.max_depth ≤ (v.depth : Int) →
          step cfg fetch s =
            some ⟨rest, s.processed ++ [v.withRelated []], s.calls⟩) ∧
        (∀ n : Int, (v.depth : Int) < cfg.max_depth →
          _get_branching cfg.number (v.depth : Int) = some n →
          step cfg fetch s =
            some ⟨rest ++ enqueueChildren v.depth (fetch v.videoId n),
              s.processed ++
                [v.withRelated ((fetch v.videoId n).map Raw.videoId)],
              s.calls ++ [(v.videoId, n)]⟩)) ∧
    build_nodes ⟨1, [2]⟩ exFetch [⟨"A", "t"⟩, ⟨"B", "t"⟩] 6 = some exFinal := by
  refine ⟨?_, ?_, by decide⟩
  · intro cfg fetch sv fuel s h
    exact (runLoop_inv (fun s s2 => step_bfsInv s s2) fuel _ s
      (initState_bfsInv sv) h).2.2.2
  · intro cfg fetch s v rest hq
    exact ⟨fun hd => step_terminal cfg fetch s v rest hq hd,
      fun n hd hb => step_expand cfg fetch s v rest n hq hd hb⟩

/-- Witness for C1: the concrete two-seed run satisfies the sortedness
conclusion. -/
theorem build_nodes_bfs_order_witness :
    exFinal.processed.Pairwise (fun a b => a.depth ≤ b.depth) :=
  build_nodes_bfs_order.1 ⟨1, [2]⟩ exFetch [⟨"A", "t"⟩, ⟨"B", "t"⟩] 6
    exFinal (by decide)

/-- C2: under `0 ≤ max_depth`, every output item satisfies
`0 ≤ depth ≤ max_depth` and an item exactly at `max_depth` has empty
`relatedVideos`; moreover an iteration that dequeues an item at or past
`max_depth` leaves the collaborator-call log unchanged (the collaborator
is not called for such an item). -/
theorem build_nodes_depth_bound :
    (∀ (cfg : Config) (fetch : Fetch) (starter_videos : List Raw)
        (fuel : Nat) (s : CrawlState), 0 ≤ cfg.max_depth →
        build_nodes cfg fetch starter_videos fuel = some s →
        ∀ p ∈ s.processed, 0 ≤ (p.depth : Int) ∧
          (p.depth : Int) ≤ cfg.max_depth ∧
          ((p.depth : Int) = cfg.max_depth → p.relatedVideos = [])) ∧
    (∀ (cfg : Config) (fetch : Fetch) (s : CrawlState) (v : QItem)
        (rest : List QItem), s.queue = v :: rest →
        cfg.max_depth ≤ (v.depth : Int) →
        step cfg fetch s =
          some ⟨rest, s.processed ++ [v.withRelated []], s.calls⟩) := by
  refine ⟨?_, fun cfg fetch s v rest hq hd =>
    step_terminal cfg fetch s v rest hq hd⟩
  intro cfg fetch sv fuel s hmd h p hp
  have hb := (runLoop_inv (fun s s2 => step_depthBound s s2) fuel _ s
    (initState_depthBound hmd sv) h).2 p hp
  exact ⟨Int.natCast_nonneg _, hb.1, hb.2⟩

/-- Witness for C2: the depth-1 item `A0` of the concrete run is within
the bound and, being at `max_depth`, has empty `relatedVideos`. -/
theorem build_nodes_depth_bound_witness :
    0 ≤ (((⟨"A0", "t", 0, 1, []⟩ : Item).depth : Nat) : Int) ∧
    (((⟨"A0", "t", 0, 1, []⟩ : Item).depth : Nat) : Int) ≤
      (⟨1, [2]⟩ : Config).max_depth ∧
    ((((⟨"A0", "t", 0, 1, []⟩ : Item).depth : Nat) : Int) =
        (⟨1, [2]⟩ : Config).max_depth →
      (⟨"A0", "t", 0, 1, []⟩ : Item).relatedVideos = []) :=
  build_nodes_depth_bound.1 ⟨1, [2]⟩ exFetch [⟨"A", "t"⟩, ⟨"B", "t"⟩] 6
    exFinal (by decide) (by decide) ⟨"A0", "t", 0, 1, []⟩ (by decide)

/-- C3: `_get_branching` returns the element at the clamped index
`max 0 (min index (len - 1))`; on a non-empty container it always
succeeds; and on `[10, 3]` it returns `10` at depth 0, `3` at depth 1,
`3` at depth 5 (clamped to the last index) and `10` at depth -1 (clamped
to the first index). -/
theorem get_branching_clamps :
    (∀ (container : List Int) (index : Int),
        _get_branching container index =
          container.get?
            (max 0 (min index ((container.length : Int) - 1))).toNat) ∧
    (∀ (container : List Int) (index : Int), container ≠ [] →
        (_get_branching container index).isSome = true) ∧
    _get_branching [10, 3] 0 = some 10 ∧
    _get_branching [10, 3] 1 = some 3 ∧
    _get_branching [10, 3] 5 = some 3 ∧
    _get_branching [10, 3] (-1) = some 10 := by
  refine ⟨?_, ?_, by decide, by decide, by decide, by decide⟩
  · intro container index
    simp [_get_branching, min_comm]
  · intro container index hne
    have hlen : 0 < container.length := List.length_pos.mpr hne
    have hj : (max (0 : Int)
        (min ((container.length : Int) - 1) index)).toNat <
        container.length := by omega
    simp only [_get_branching]
    rw [List.get?_eq_get hj]
    rfl

/-- Witness for C3: the non-emptiness clause at `[10, 3]`, depth 7. -/
theorem get_branching_clamps_witness :
    (_get_branching ([10, 3] : List Int) 7).isSome = true :=
  get_branching_clamps.2.1 [10, 3] 7 (by decide)

/-- C4: every output item below `max_depth` carries, as `relatedVideos`,
exactly the ids of the records the collaborator returned for it, in the
collaborator's order; and the iteration expanding such an item enqueues
exactly those children, id-for-id in the same order, each at depth
`v.depth + 1`. -/
theorem build_nodes_edge_mirroring :
    (∀ (cfg : Config) (fetch : Fetch) (starter_videos : List Raw)
        (fuel : Nat) (s : CrawlState),
        build_nodes cfg fetch starter_videos fuel = some s →
        ∀ p ∈ s.processed, (p.depth : Int) < cfg.max_depth →
          ∃ n, _get_branching cfg.number (p.depth : Int) = some n ∧
            p.relatedVideos = (fetch p.videoId n).map Raw.videoId) ∧
    (∀ (cfg : Config) (fetch : Fetch) (s : CrawlState) (v : QItem)
        (rest : List QItem) (n : Int), s.queue = v :: rest →
        (v.depth : Int) < cfg.max_depth →
        _get_branching cfg.number (v.depth : Int) = some n →
        step cfg fetch s =
          some ⟨rest ++ enqueueChildren v.depth (fetch v.videoId n),
            s.processed ++
              [v.withRelated ((fetch v.videoId n).map Raw.videoId)],
            s.calls ++ [(v.videoId, n)]⟩ ∧
        (enqueueChildren v.depth (fetch v.videoId n)).map QItem.videoId =
          (fetch v.videoId n).map Raw.videoId ∧
        ∀ c ∈ enqueueChildren v.depth (fetch v.videoId n),
          c.depth = v.depth + 1) := by
  constructor
  · intro cfg fetch sv fuel s h
    exact runLoop_inv (fun s s2 => step_mirrors s s2) fuel _ s
      (fun p hp _ => absurd hp (by simp [initState])) h
  · intro cfg fetch s v rest n hq hd hb
    exact ⟨step_expand cfg fetch s v rest n hq hd hb,
      enqueueChildren_map_videoId _ _,
      fun c hc => depth_of_mem_enqueueChildren hc⟩

/-- Witness for C4: expanding seed `A` of the concrete run enqueues
`A0, A1` at depth 1 and records `["A0", "A1"]` on `A`. -/
theorem build_nodes_edge_mirroring_witness :
    step ⟨1, [2]⟩ exFetch (initState [⟨"A", "t"⟩, ⟨"B", "t"⟩]) =
      some ⟨[⟨"B", "t", 1, 0⟩, ⟨"A0", "t", 0, 1⟩, ⟨"A1", "t", 1, 1⟩],
        [⟨"A", "t", 0, 0, ["A0", "A1"]⟩], [("A", 2)]⟩ :=
  (build_nodes_edge_mirroring.2 ⟨1, [2]⟩ exFetch
    (initState [⟨"A", "t"⟩, ⟨"B", "t"⟩]) ⟨"A", "t", 0, 0⟩ [⟨"B", "t", 1, 0⟩]
    2 (by decide) (by decide) (by decide)).1

/-- C10: on an empty seed sequence `build_nodes` neither fails nor calls
the collaborator: it returns an empty output with an empty call log, for
every config, collaborator and fuel. -/
theorem build_nodes_empty_seeds :
    ∀ (cfg : Config) (fetch : Fetch) (fuel : Nat),
      build_nodes cfg fetch [] fuel = some ⟨[], [], []⟩ := by
  intro cfg fetch fuel
  cases fuel <;> rfl

/-- Counterexample to C5 as stated: a configuration with an empty branch
schedule passes `validate` unchanged — no error is raised at
config-normalization time. -/
theorem validate_empty_number_counterexample :
    validate ⟨.vint 3, .vlist []⟩ = some ⟨.vint 3, .vlist []⟩ := by decide

/-- C5 amended: `validate` performs no emptiness check on the branch
schedule; an empty `number` passes normalization unchanged, and the
failure only surfaces later as an `IndexError` — in `term`-mode seed
resolution when `number[0]` is read, or during the traversal itself when
`_get_branching` indexes the empty schedule. -/
theorem validate_empty_number_amended :
    (∀ d : Int, validate ⟨.vint d, .vlist []⟩ = some ⟨.vint d, .vlist []⟩) ∧
    (∀ (video_search : Int → String → List Raw)
        (video_info : String → List Raw) (md : Int) (query : String),
        get_starter_videos ⟨md, []⟩ video_search video_info .term query =
          none) ∧
    (∀ index : Int, _get_branching ([] : List Int) index = none) ∧
    (∀ (fetch : Fetch) (s : CrawlState) (v : QItem) (rest : List QItem)
        (md : Int), s.queue = v :: rest → (v.depth : Int) < md →
        step ⟨md, []⟩ fetch s = none) := by
  refine ⟨fun d => rfl, fun vs vi md q => rfl, fun i => rfl, ?_⟩
  intro fetch s v rest md hq hd
  obtain ⟨q, proc, cl⟩ := s
  rw [show q = v :: rest from hq]
  simp only [step, if_neg (not_le.mpr hd), get_branching_nil]

/-- Witness for C5 amended: with `max_depth = 2` and an empty schedule,
dequeuing a depth-0 item crashes the loop. -/
theorem validate_empty_number_amended_witness :
    step ⟨2, []⟩ exFetch ⟨[⟨"A", "t", 0, 0⟩], [], []⟩ = none :=
  validate_empty_number_amended.2.2.2 exFetch ⟨[⟨"A", "t", 0, 0⟩], [], []⟩
    ⟨"A", "t", 0, 0⟩ [] 2 (by decide) (by decide)

/-- Counterexample to C6 as stated: a negative `max_depth` passes
`validate` without any error. -/
theorem validate_negative_depth_counterexample :
    validate ⟨.vint (-5), .vint 3⟩ = some ⟨.vint (-5), .vlist [3]⟩ := by
  decide

/-- C6 amended: `validate` coerces `max_depth` with `int(...)` and fails
exactly when that coercion fails; it performs no sign check, so a
negative coerced `max_depth` passes normalization.  (Negative values are
screened elsewhere: by the CLI `IntRange(0, 100)` and by the `config set`
command.) -/
theorem validate_coerce_no_sign_check :
    (∀ c : RawConfig, (validate c).isSome = (pyInt c.max_depth).isSome) ∧
    (∀ (c : RawConfig) (d : Int), pyInt c.max_depth = some d →
        validate c = some ⟨.vint d, wrapNumber c.number⟩) := by
  constructor
  · intro c
    cases hmd : pyInt c.max_depth with
    | none => simp [validate_none c hmd]
    | some d => simp [validate_char c d hmd]
  · exact fun c d h => validate_char c d h

/-- Witness for C6 amended: `max_depth = -7` passes normalization. -/
theorem validate_coerce_no_sign_check_witness :
    validate ⟨.vint (-7), .vint 2⟩ =
      some ⟨.vint (-7), wrapNumber (.vint 2)⟩ :=
  validate_coerce_no_sign_check.2 ⟨.vint (-7), .vint 2⟩ (-7) (by decide)

/-- Counterexample to C7 as stated: the caller's configuration mapping is
not unchanged after `validate` — a scalar `number` has been replaced by a
one-element sequence in place. -/
theorem validate_mutation_counterexample :
    validate ⟨.vint 3, .vint 5⟩ = some ⟨.vint 3, .vlist [5]⟩ ∧
    (⟨.vint 3, .vlist [5]⟩ : RawConfig) ≠ ⟨.vint 3, .vint 5⟩ := by decide

/-- C7 amended: `validate` normalizes by mutating the caller's mapping in
place (the Python function returns `None`): after a successful call the
caller's mapping holds the `int(...)`-coerced `max_depth` (the same
integer value) and the wrapped `number`. -/
theorem validate_in_place_update :
    ∀ (c c2 : RawConfig), validate c = some c2 →
      pyInt c2.max_depth = pyInt c.max_depth ∧
      c2.number = wrapNumber c.number := by
  intro c c2 h
  cases hmd : pyInt c.max_depth with
  | none => rw [validate_none c hmd] at h; exact absurd h (by simp)
  | some d =>
    rw [validate_char c d hmd] at h
    simp only [Option.some.injEq] at h
    rw [← h]
    exact ⟨rfl, rfl⟩

/-- Witness for C7 amended: after validating `max_depth = 3`,
`number = 5`, the mapping holds the coerced depth and the wrapped
schedule. -/
theorem validate_in_place_update_witness :
    pyInt (⟨.vint 3, .vlist [5]⟩ : RawConfig).max_depth =
      pyInt (⟨.vint 3, .vint 5⟩ : RawConfig).max_depth ∧
    (⟨.vint 3, .vlist [5]⟩ : RawConfig).number =
      wrapNumber (⟨.vint 3, .vint 5⟩ : RawConfig).number :=
  validate_in_place_update ⟨.vint 3, .vint 5⟩ ⟨.vint 3, .vlist [5]⟩
    (by decide)

/-- C8: in `url` mode, seed resolution fails when the URL's query string
has no `v` parameter (the uncaught `KeyError`, the spec's `InputError`,
raised in `get_starter_videos`, i.e. before `build_nodes` runs), and when
a `v` parameter is present it behaves exactly as the `id` mode applied to
the extracted identifier. -/
theorem get_starter_videos_url_mode :
    (∀ (cfg : Config) (video_search : Int → String → List Raw)
        (video_info : String → List Raw) (query : String),
        (parse_qsl (urlsplitQuery query)).lookup "v" = none →
        get_starter_videos cfg video_search video_info .url query = none) ∧
    (∀ (cfg : Config) (video_search : Int → String → List Raw)
        (video_info : String → List Raw) (query video_id : String),
        (parse_qsl (urlsplitQuery query)).lookup "v" = some video_id →
        get_starter_videos cfg video_search video_info .url query =
          get_starter_videos cfg video_search video_info .id video_id) := by
  constructor
  · intro cfg vs vi query h
    simp [get_starter_videos, h]
  · intro cfg vs vi query vid h
    simp [get_starter_videos, h]

/-- Witness for C8: a watch URL without `v` fails; one with `v=abc`
resolves as `id` mode on `"abc"`. -/
theorem get_starter_videos_url_mode_witness :
    get_starter_videos ⟨1, [2]⟩ exSearch exInfo .url
      "https://www.youtube.com/watch?t=10" = none ∧
    get_starter_videos ⟨1, [2]⟩ exSearch exInfo .url
      "https://www.youtube.com/watch?v=abc&t=10" =
      get_starter_videos ⟨1, [2]⟩ exSearch exInfo .id "abc" :=
  ⟨get_starter_videos_url_mode.1 ⟨1, [2]⟩ exSearch exInfo
      "https://www.youtube.com/watch?t=10" (by decide),
    get_starter_videos_url_mode.2 ⟨1, [2]⟩ exSearch exInfo
      "https://www.youtube.com/watch?v=abc&t=10" "abc" (by decide)⟩

/-- C9: normalizing an already-normalized configuration (`max_depth`
already an int, `number` already a sequence) yields the identical
structure; a scalar `number` is wrapped into a one-element sequence; and
the output of a successful normalization is a fixpoint of `validate`. -/
theorem validate_idempotent :
    (∀ (d : Int) (l : List Int),
        validate ⟨.vint d, .vlist l⟩ = some ⟨.vint d, .vlist l⟩) ∧
    (∀ d n : Int,
        validate ⟨.vint d, .vint n⟩ = some ⟨.vint d, .vlist [n]⟩) ∧
    (∀ (c c2 : RawConfig), validate c = some c2 →
        validate c2 = some c2) := by
  refine ⟨fun d l => rfl, fun d n => rfl, ?_⟩
  intro c c2 h
  cases hmd : pyInt c.max_depth with
  | none => rw [validate_none c hmd] at h; exact absurd h (by simp)
  | some d =>
    rw [validate_char c d hmd] at h
    simp only [Option.some.injEq] at h
    rw [← h]
    rw [validate_char ⟨.vint d, wrapNumber c.number⟩ d rfl]
    simp [wrapNumber_idem]

/-- Witness for C9: revalidating the output of a validation run is a
no-op. -/
theorem validate_idempotent_witness :
    validate ⟨.vint 3, .vlist [5]⟩ = some ⟨.vint 3, .vlist [5]⟩ :=
  validate_idempotent.2.2 ⟨.vint 3, .vint 5⟩ ⟨.vint 3, .vlist [5]⟩
    (by decide)

end YtScraper
